import Mathlib

/-!
# Verification of the personaliser bed-packing and template layout engine

Shallow embedding of `src/backend/app/packer/rect_packer.py` and of the
template layout engine (`src/backend/app/layout_engine/{renderer,models,utils}.py`).

Python floats are modelled by an arbitrary linearly ordered commutative ring
`α`: the packer performs only `+`, `*`, `max` and comparisons on its numeric
inputs, so its behaviour is uniform in `α`; instantiating `α := ℚ` gives the
exact-arithmetic reading of the float code, and on the all-integer inputs of
the concrete scenarios (where float arithmetic is exact) `α := ℤ` computes
the same traces.  Python `while` loops are modelled with an explicit fuel
parameter: a loop function returns `none` exactly when the fuel runs out
while the loop would still continue, so `some r` means the Python loop
terminates with result `r`, and `(∀ fuel, … = none)` means the Python loop
diverges.
-/

namespace Personaliser

/-- The `Rect` dataclass from `rect_packer.py`. -/
structure Rect (α : Type) where
  id : String
  w : α
  h : α
deriving DecidableEq, Repr

/-- The `PlacedRect(Rect)` dataclass from `rect_packer.py` (base fields inlined). -/
structure PlacedRect (α : Type) where
  id : String
  w : α
  h : α
  x : α
  y : α
deriving DecidableEq, Repr

/-- A keepout zone `(x, y, w, h)`. -/
abbrev Keepout (α : Type) := α × α × α × α

variable {α : Type} [LinearOrderedCommRing α]

/-- The `_overlaps_keepouts(rect, keepouts)` from `rect_packer.py` (lines 69-75):
returns `True` iff the candidate rectangle overlaps some keepout zone. -/
def overlaps_keepouts (rect : Keepout α) (keepouts : List (Keepout α)) : Bool :=
  keepouts.any fun k =>
    !(decide (rect.1 + rect.2.2.1 ≤ k.1) || decide (rect.1 ≥ k.1 + k.2.2.1) ||
      decide (rect.2.1 + rect.2.2.2 ≤ k.2.1) || decide (rect.2.1 ≥ k.2.1 + k.2.2.2))

/-- The keepout-avoidance shift loop appearing identically in `pack_first_fit`
(lines 38-45) and in `pack_paginated` (lines 112-119):

```python
moved = False
while cursor_x + r.w <= bed_w - margin:
    cursor_x += gutter
    candidate = (cursor_x, cursor_y, r.w, r.h)
    if not _overlaps_keepouts(candidate, keepouts):
        moved = True
        break
```

Returns `some (moved, cursor_x)` on natural exit and `none` on fuel
exhaustion (the loop diverges e.g. when `gutter = 0` and the overlap
persists). -/
def shiftRight (fuel : Nat) (bed_w margin gutter : α) (keepouts : List (Keepout α))
    (cursor_x cursor_y w h : α) : Option (Bool × α) :=
  if cursor_x + w ≤ bed_w - margin then
    match fuel with
    | 0 => none
    | fuel + 1 =>
      let cx := cursor_x + gutter
      if overlaps_keepouts (cx, cursor_y, w, h) keepouts then
        shiftRight fuel bed_w margin gutter keepouts cx cursor_y w h
      else
        some (true, cx)
  else
    some (false, cursor_x)

/-- The inner row-filling scan (`while i < len(lst)` loop) appearing
identically in `pack_first_fit` (lines 31-55) and `pack_paginated`
(lines 106-128).  `rest` is the part of the mutable list not yet scanned
(indices `≥ i`), `kept` the scanned rects that were skipped (indices `< i`),
`placedAcc` the placements made so far in this row.  Returns
`some (remaining_after_row, row_height, placed_in_row)`, where
`remaining_after_row` is what is left of the list after the row's pops. -/
def packRowGo (fuel : Nat) (bed_w bed_h margin gutter : α) (keepouts : List (Keepout α))
    (cursor_y : α) (rest : List (Rect α)) (cursor_x row_height : α)
    (kept : List (Rect α)) (placedAcc : List (PlacedRect α)) :
    Option (List (Rect α) × α × List (PlacedRect α)) :=
  match rest with
  | [] => some (kept, row_height, placedAcc)
  | r :: rest' =>
    if cursor_x + r.w ≤ bed_w - margin ∧ cursor_y + r.h ≤ bed_h - margin then
      if overlaps_keepouts (cursor_x, cursor_y, r.w, r.h) keepouts then
        match shiftRight fuel bed_w margin gutter keepouts cursor_x cursor_y r.w r.h with
        | none => none
        | some (false, cx) =>
          packRowGo fuel bed_w bed_h margin gutter keepouts cursor_y rest'
            cx row_height (kept ++ [r]) placedAcc
        | some (true, cx) =>
          packRowGo fuel bed_w bed_h margin gutter keepouts cursor_y rest'
            (cx + r.w + gutter) (max row_height r.h) kept
            (placedAcc ++ [⟨r.id, r.w, r.h, cx, cursor_y⟩])
      else
        packRowGo fuel bed_w bed_h margin gutter keepouts cursor_y rest'
          (cursor_x + r.w + gutter) (max row_height r.h) kept
          (placedAcc ++ [⟨r.id, r.w, r.h, cursor_x, cursor_y⟩])
    else
      packRowGo fuel bed_w bed_h margin gutter keepouts cursor_y rest'
        cursor_x row_height (kept ++ [r]) placedAcc

/-- The per-bed outer loop, textually identical in `pack_first_fit`
(lines 26-62) and inside `pack_paginated` (lines 101-134):

```python
while remaining and cursor_y + row_height <= bed_h - margin:
    cursor_x = margin; row_height = 0.0
    ... row scan ...
    if row_height == 0.0: cursor_y += gutter
    else: cursor_y += row_height + gutter
    if cursor_y > bed_h - margin: break
```

Returns `some (placed, remaining)` on natural exit, `none` on fuel
exhaustion. -/
def packBedLoop (fuel : Nat) (bed_w bed_h margin gutter : α) (keepouts : List (Keepout α))
    (remaining : List (Rect α)) (cursor_y row_height : α) (placed : List (PlacedRect α)) :
    Option (List (PlacedRect α) × List (Rect α)) :=
  if remaining ≠ [] ∧ cursor_y + row_height ≤ bed_h - margin then
    match fuel with
    | 0 => none
    | fuel + 1 =>
      match packRowGo fuel bed_w bed_h margin gutter keepouts cursor_y remaining
          margin 0 [] [] with
      | none => none
      | some (remaining', rh', placedRow) =>
        let cursor_y' := if rh' = 0 then cursor_y + gutter else cursor_y + rh' + gutter
        if cursor_y' > bed_h - margin then
          some (placed ++ placedRow, remaining')
        else
          packBedLoop fuel bed_w bed_h margin gutter keepouts remaining'
            cursor_y' rh' (placed ++ placedRow)
  else
    some (placed, remaining)

/-- Python's string `≤`: code-point lexicographic comparison of the
characters (written out structurally so that it evaluates). -/
def charListLE : List Char → List Char → Bool
  | [], _ => true
  | _ :: _, [] => false
  | a :: as, b :: bs => if a < b then true else if a = b then charListLE as bs else false

/-- Comparison used by `sorted(rects, key=lambda r: (-(r.w * r.h), r.id))`:
lexicographic `≤` on the key `(-(w*h), id)`, Python tuple and string
ordering. -/
def rectKeyLE (a b : Rect α) : Bool :=
  decide (-(a.w * a.h) < -(b.w * b.h)) ||
    (decide (-(a.w * a.h) = -(b.w * b.h)) && charListLE a.id.toList b.id.toList)

/-- Stable insertion of `x` (which originally comes after every element of the
list) into an already sorted list: `x` goes after every element whose key is
`≤` its own, so ties keep the original order, as Python's stable `sorted`. -/
def insertRect (x : Rect α) : List (Rect α) → List (Rect α)
  | [] => [x]
  | y :: ys => if rectKeyLE y x then y :: insertRect x ys else x :: y :: ys

/-- The `sorted(rects, key=lambda r: (-(r.w * r.h), r.id))`: Python's `sorted` is
a stable ascending sort, whose result is uniquely determined by the key
comparison; we realise it as a stable insertion sort. -/
def sortRects (rects : List (Rect α)) : List (Rect α) :=
  rects.foldl (fun acc r => insertRect r acc) []

/-- The `pack_first_fit(rects, bed_w, bed_h, margin, gutter, keepouts, seed)`
(rect_packer.py lines 18-66).  The `seed` only feeds `random.Random(seed)`,
whose value `rng` is never used, so it is an ignored argument here as well. -/
def pack_first_fit (fuel : Nat) (rects : List (Rect α)) (bed_w bed_h margin gutter : α)
    (keepouts : List (Keepout α)) (seed : Int) :
    Option (List (PlacedRect α) × List String) :=
  let _ := seed
  let rects_sorted := sortRects rects
  match packBedLoop fuel bed_w bed_h margin gutter keepouts rects_sorted margin 0 [] with
  | none => none
  | some (placed, remaining) =>
    some (placed, if remaining ≠ [] then ["OVERFLOW"] else [])

/-- The pagination loop of `pack_paginated` (lines 97-137):

```python
while remaining:
    placed = []
    ... per-bed loop ...
    beds.append(placed)
    if not placed: break
```
-/
def packPagLoop (fuel : Nat) (bed_w bed_h margin gutter : α) (keepouts : List (Keepout α))
    (remaining : List (Rect α)) (beds : List (List (PlacedRect α))) :
    Option (List (List (PlacedRect α))) :=
  if remaining ≠ [] then
    match fuel with
    | 0 => none
    | fuel + 1 =>
      match packBedLoop fuel bed_w bed_h margin gutter keepouts remaining margin 0 [] with
      | none => none
      | some (placed, remaining') =>
        if placed = [] then
          some (beds ++ [placed])
        else
          packPagLoop fuel bed_w bed_h margin gutter keepouts remaining' (beds ++ [placed])
  else
    some beds

/-- The `pack_paginated(rects, bed_w, bed_h, margin, gutter, keepouts, seed)`
(rect_packer.py lines 77-139).  As in `pack_first_fit`, `seed` is unused by
the source (the constructed `rng` is never read). -/
def pack_paginated (fuel : Nat) (rects : List (Rect α)) (bed_w bed_h margin gutter : α)
    (keepouts : List (Keepout α)) (seed : Int) :
    Option (List (List (PlacedRect α))) :=
  let _ := seed
  packPagLoop fuel bed_w bed_h margin gutter keepouts (sortRects rects) []

/-! ### Basic lemmas about the sort -/

theorem insertRect_perm (x : Rect α) :
    ∀ l : List (Rect α), List.Perm (insertRect x l) (x :: l) := by
  intro l
  induction l with
  | nil => simp [insertRect]
  | cons y ys ih =>
    simp only [insertRect]
    split
    · exact (ih.cons y).trans (List.Perm.swap x y ys)
    · exact List.Perm.refl _

theorem sortRects_go_perm :
    ∀ (l acc : List (Rect α)),
      List.Perm (List.foldl (fun acc r => insertRect r acc) acc l) (acc ++ l) := by
  intro l
  induction l with
  | nil => intro acc; simp
  | cons r l ih =>
    intro acc
    refine ((ih (insertRect r acc)).trans ?_)
    refine (((insertRect_perm r acc).append_right l).trans ?_)
    exact List.perm_middle.symm

theorem sortRects_perm (l : List (Rect α)) : List.Perm (sortRects l) l := by
  simpa [sortRects] using sortRects_go_perm l []

theorem mem_sortRects {r : Rect α} {l : List (Rect α)} (h : r ∈ sortRects l) : r ∈ l :=
  (sortRects_perm l).mem_iff.mp h

/-! ### Unfolding equations for the fuel-indexed loops -/

theorem shiftRight_zero (bw m g : α) (ks : List (Keepout α)) (cx cy w h : α) :
    shiftRight 0 bw m g ks cx cy w h =
      if cx + w ≤ bw - m then none else some (false, cx) := rfl

theorem shiftRight_succ (n : Nat) (bw m g : α) (ks : List (Keepout α)) (cx cy w h : α) :
    shiftRight (n + 1) bw m g ks cx cy w h =
      if cx + w ≤ bw - m then
        (if overlaps_keepouts (cx + g, cy, w, h) ks then
          shiftRight n bw m g ks (cx + g) cy w h
        else some (true, cx + g))
      else some (false, cx) := rfl

theorem packBedLoop_zero (bw bh m g : α) (ks : List (Keepout α))
    (remaining : List (Rect α)) (cy rh : α) (placed : List (PlacedRect α)) :
    packBedLoop 0 bw bh m g ks remaining cy rh placed =
      if remaining ≠ [] ∧ cy + rh ≤ bh - m then none
      else some (placed, remaining) := rfl

theorem packBedLoop_succ (n : Nat) (bw bh m g : α) (ks : List (Keepout α))
    (remaining : List (Rect α)) (cy rh : α) (placed : List (PlacedRect α)) :
    packBedLoop (n + 1) bw bh m g ks remaining cy rh placed =
      if remaining ≠ [] ∧ cy + rh ≤ bh - m then
        match packRowGo n bw bh m g ks cy remaining m 0 [] [] with
        | none => none
        | some (remaining', rh', placedRow) =>
          let cy' := if rh' = 0 then cy + g else cy + rh' + g
          if cy' > bh - m then some (placed ++ placedRow, remaining')
          else packBedLoop n bw bh m g ks remaining' cy' rh' (placed ++ placedRow)
      else some (placed, remaining) := rfl

theorem packPagLoop_zero (bw bh m g : α) (ks : List (Keepout α))
    (remaining : List (Rect α)) (beds : List (List (PlacedRect α))) :
    packPagLoop 0 bw bh m g ks remaining beds =
      if remaining ≠ [] then none else some beds := rfl

theorem packPagLoop_succ (n : Nat) (bw bh m g : α) (ks : List (Keepout α))
    (remaining : List (Rect α)) (beds : List (List (PlacedRect α))) :
    packPagLoop (n + 1) bw bh m g ks remaining beds =
      if remaining ≠ [] then
        match packBedLoop n bw bh m g ks remaining m 0 [] with
        | none => none
        | some (placed, remaining') =>
          if placed = [] then some (beds ++ [placed])
          else packPagLoop n bw bh m g ks remaining' (beds ++ [placed])
      else some beds := rfl

/-! ### Fuel monotonicity: a `some` result is stable under more fuel -/

theorem shiftRight_mono : ∀ {fuel fuel' : Nat}, fuel ≤ fuel' →
    ∀ {bw m g : α} {ks : List (Keepout α)} {cx cy w h : α} {r : Bool × α},
    shiftRight fuel bw m g ks cx cy w h = some r →
    shiftRight fuel' bw m g ks cx cy w h = some r := by
  intro fuel
  induction fuel with
  | zero =>
    intro fuel' _ bw m g ks cx cy w h r hr
    rw [shiftRight_zero] at hr
    split at hr
    · exact absurd hr (by simp)
    · rename_i hc
      cases fuel' with
      | zero => rw [shiftRight_zero]; simp only [hc, if_false]; exact hr
      | succ k => rw [shiftRight_succ]; simp only [hc, if_false]; exact hr
  | succ n ih =>
    intro fuel' hle bw m g ks cx cy w h r hr
    rw [shiftRight_succ] at hr
    match fuel', hle with
    | fuel' + 1, hle =>
      rw [shiftRight_succ]
      split at hr <;> rename_i hc
      · simp only [hc, if_true]
        split at hr <;> rename_i hov
        · simp only [hov, if_true]
          exact ih (Nat.succ_le_succ_iff.mp hle) hr
        · simp only [hov, if_false]
          exact hr
      · simp only [hc, if_false]
        exact hr

theorem packRowGo_mono {fuel fuel' : Nat} (hle : fuel ≤ fuel')
    {bw bh m g : α} {ks : List (Keepout α)} {cy : α} :
    ∀ {rest : List (Rect α)} {cx rh : α} {kept : List (Rect α)}
      {acc : List (PlacedRect α)} {r : List (Rect α) × α × List (PlacedRect α)},
    packRowGo fuel bw bh m g ks cy rest cx rh kept acc = some r →
    packRowGo fuel' bw bh m g ks cy rest cx rh kept acc = some r := by
  intro rest
  induction rest with
  | nil => intro cx rh kept acc r hr; simpa [packRowGo] using hr
  | cons x rest ih =>
    intro cx rh kept acc r hr
    rw [packRowGo] at hr
    rw [packRowGo]
    split at hr <;> rename_i hfit
    · simp only [hfit, if_true] at *
      split at hr <;> rename_i hov
      · simp only [hov, if_true] at *
        rcases hsr : shiftRight fuel bw m g ks cx cy x.w x.h with _ | ⟨moved, cx'⟩
        · rw [hsr] at hr; exact absurd hr (by simp)
        · rw [hsr] at hr
          rw [shiftRight_mono hle hsr]
          match moved with
          | false => exact ih hr
          | true => exact ih hr
      · simp only [hov, if_false] at *
        exact ih hr
    · simp only [hfit, if_false] at *
      exact ih hr

theorem packBedLoop_mono : ∀ {fuel fuel' : Nat}, fuel ≤ fuel' →
    ∀ {bw bh m g : α} {ks : List (Keepout α)} {remaining : List (Rect α)} {cy rh : α}
      {placed : List (PlacedRect α)} {r : List (PlacedRect α) × List (Rect α)},
    packBedLoop fuel bw bh m g ks remaining cy rh placed = some r →
    packBedLoop fuel' bw bh m g ks remaining cy rh placed = some r := by
  intro fuel
  induction fuel with
  | zero =>
    intro fuel' _ bw bh m g ks remaining cy rh placed r hr
    rw [packBedLoop_zero] at hr
    split at hr
    · exact absurd hr (by simp)
    · rename_i hc
      cases fuel' with
      | zero => rw [packBedLoop_zero]; simp only [hc, if_false]; exact hr
      | succ k => rw [packBedLoop_succ]; simp only [hc, if_false]; exact hr
  | succ n ih =>
    intro fuel' hle bw bh m g ks remaining cy rh placed r hr
    rw [packBedLoop_succ] at hr
    cases fuel' with
    | zero => exact absurd hle (by omega)
    | succ k =>
      have hle' : n ≤ k := Nat.succ_le_succ_iff.mp hle
      rw [packBedLoop_succ]
      by_cases hc : remaining ≠ [] ∧ cy + rh ≤ bh - m
      · rw [if_pos hc] at hr
        rw [if_pos hc]
        rcases hrow : packRowGo n bw bh m g ks cy remaining m 0 [] [] with _ | ⟨rem', rh', prow⟩
        · rw [hrow] at hr; exact absurd hr (by simp)
        · rw [hrow] at hr
          rw [packRowGo_mono hle' hrow]
          show (if (if rh' = 0 then cy + g else cy + rh' + g) > bh - m then
              some (placed ++ prow, rem')
            else packBedLoop k bw bh m g ks rem'
              (if rh' = 0 then cy + g else cy + rh' + g) rh' (placed ++ prow)) = some r
          have hr' : (if (if rh' = 0 then cy + g else cy + rh' + g) > bh - m then
              some (placed ++ prow, rem')
            else packBedLoop n bw bh m g ks rem'
              (if rh' = 0 then cy + g else cy + rh' + g) rh' (placed ++ prow)) = some r := hr
          by_cases hgt : (if rh' = 0 then cy + g else cy + rh' + g) > bh - m
          · rw [if_pos hgt] at hr' ⊢; exact hr'
          · rw [if_neg hgt] at hr' ⊢; exact ih hle' hr'
      · rw [if_neg hc] at hr
        rw [if_neg hc]
        exact hr

theorem packPagLoop_mono : ∀ {fuel fuel' : Nat}, fuel ≤ fuel' →
    ∀ {bw bh m g : α} {ks : List (Keepout α)} {remaining : List (Rect α)}
      {beds r : List (List (PlacedRect α))},
    packPagLoop fuel bw bh m g ks remaining beds = some r →
    packPagLoop fuel' bw bh m g ks remaining beds = some r := by
  intro fuel
  induction fuel with
  | zero =>
    intro fuel' _ bw bh m g ks remaining beds r hr
    rw [packPagLoop_zero] at hr
    split at hr
    · exact absurd hr (by simp)
    · rename_i hc
      cases fuel' with
      | zero => rw [packPagLoop_zero]; simp only [hc, if_false]; exact hr
      | succ k => rw [packPagLoop_succ]; simp only [hc, if_false]; exact hr
  | succ n ih =>
    intro fuel' hle bw bh m g ks remaining beds r hr
    rw [packPagLoop_succ] at hr
    cases fuel' with
    | zero => exact absurd hle (by omega)
    | succ k =>
      have hle' : n ≤ k := Nat.succ_le_succ_iff.mp hle
      rw [packPagLoop_succ]
      by_cases hc : remaining ≠ []
      · rw [if_pos hc] at hr
        rw [if_pos hc]
        rcases hbed : packBedLoop n bw bh m g ks remaining m 0 [] with _ | ⟨placed, rem'⟩
        · rw [hbed] at hr; exact absurd hr (by simp)
        · rw [hbed] at hr
          rw [packBedLoop_mono hle' hbed]
          show (if placed = [] then some (beds ++ [placed])
            else packPagLoop k bw bh m g ks rem' (beds ++ [placed])) = some r
          have hr' : (if placed = [] then some (beds ++ [placed])
            else packPagLoop n bw bh m g ks rem' (beds ++ [placed])) = some r := hr
          by_cases hp : placed = []
          · rw [if_pos hp] at hr' ⊢; exact hr'
          · rw [if_neg hp] at hr' ⊢; exact ih hle' hr'
      · rw [if_neg hc] at hr
        rw [if_neg hc]
        exact hr

theorem pack_first_fit_mono {fuel fuel' : Nat} (hle : fuel ≤ fuel')
    {rects : List (Rect α)} {bw bh m g : α} {ks : List (Keepout α)} {seed : Int}
    {r : List (PlacedRect α) × List String}
    (hr : pack_first_fit fuel rects bw bh m g ks seed = some r) :
    pack_first_fit fuel' rects bw bh m g ks seed = some r := by
  simp only [pack_first_fit] at hr ⊢
  rcases hbed : packBedLoop fuel bw bh m g ks (sortRects rects) m 0 [] with _ | ⟨placed, rem⟩
  · rw [hbed] at hr; exact absurd hr (by simp)
  · rw [hbed] at hr
    rw [packBedLoop_mono hle hbed]
    exact hr

theorem pack_paginated_mono {fuel fuel' : Nat} (hle : fuel ≤ fuel')
    {rects : List (Rect α)} {bw bh m g : α} {ks : List (Keepout α)} {seed : Int}
    {r : List (List (PlacedRect α))}
    (hr : pack_paginated fuel rects bw bh m g ks seed = some r) :
    pack_paginated fuel' rects bw bh m g ks seed = some r :=
  packPagLoop_mono hle hr

/-! ### Mutual non-overlap of placements -/

/-- The open interiors of two placed rectangles intersect. -/
def footprintsOverlap (p q : PlacedRect α) : Prop :=
  p.x < q.x + q.w ∧ q.x < p.x + p.w ∧ p.y < q.y + q.h ∧ q.y < p.y + p.h

instance (p q : PlacedRect α) : Decidable (footprintsOverlap p q) := by
  unfold footprintsOverlap; infer_instance

/-- With a nonnegative gutter the keepout-avoidance shift never moves the
cursor left. -/
theorem shiftRight_le {g : α} (hg : 0 ≤ g) :
    ∀ {fuel : Nat} {bw m : α} {ks : List (Keepout α)} {cx cy w h : α}
      {moved : Bool} {cx' : α},
    shiftRight fuel bw m g ks cx cy w h = some (moved, cx') → cx ≤ cx' := by
  intro fuel
  induction fuel with
  | zero =>
    intro bw m ks cx cy w h moved cx' hr
    rw [shiftRight_zero] at hr
    split at hr
    · exact absurd hr (by simp)
    · simp only [Option.some.injEq, Prod.mk.injEq] at hr
      exact le_of_eq hr.2
  | succ n ih =>
    intro bw m ks cx cy w h moved cx' hr
    rw [shiftRight_succ] at hr
    split at hr
    · split at hr
      · exact le_trans (by linarith) (ih hr)
      · simp only [Option.some.injEq, Prod.mk.injEq] at hr
        linarith [hr.2]
    · simp only [Option.some.injEq, Prod.mk.injEq] at hr
      exact le_of_eq hr.2

/-- Row invariant: starting a row scan from a state in which every already
placed rectangle of this row sits at height `cy`, ends left of the cursor and
is no taller than the running row height, the scan produces pairwise disjoint
placements, all at height `cy` and no taller than the final row height, the
row height never shrinks, and the surviving rects come from `kept ++ rest`. -/
theorem packRowGo_disjoint {g : α} (hg : 0 ≤ g)
    {fuel : Nat} {bw bh m : α} {ks : List (Keepout α)} {cy : α} :
    ∀ {rest : List (Rect α)} {cx rh : α} {kept rem' : List (Rect α)}
      {acc out : List (PlacedRect α)} {rh' : α},
    (∀ x ∈ rest, 0 ≤ x.w) →
    (∀ p ∈ acc, p.y = cy ∧ p.x + p.w ≤ cx ∧ p.h ≤ rh) →
    acc.Pairwise (fun a b => ¬ footprintsOverlap a b) →
    packRowGo fuel bw bh m g ks cy rest cx rh kept acc = some (rem', rh', out) →
    out.Pairwise (fun a b => ¬ footprintsOverlap a b) ∧
      (∀ p ∈ out, p.y = cy ∧ p.h ≤ rh') ∧ rh ≤ rh' ∧
      (∀ x ∈ rem', x ∈ kept ∨ x ∈ rest) := by
  intro rest
  induction rest with
  | nil =>
    intro cx rh kept rem' acc out rh' hw hacc hpair hres
    rw [packRowGo] at hres
    simp only [Option.some.injEq, Prod.mk.injEq] at hres
    obtain ⟨h1, h2, h3⟩ := hres
    subst h1; subst h2; subst h3
    exact ⟨hpair, fun p hp => ⟨(hacc p hp).1, (hacc p hp).2.2⟩, le_rfl,
      fun x hx => Or.inl hx⟩
  | cons x rest ih =>
    intro cx rh kept rem' acc out rh' hw hacc hpair hres
    have hxw : 0 ≤ x.w := hw x (List.mem_cons_self _ _)
    have hw' : ∀ y ∈ rest, 0 ≤ y.w := fun y hy => hw y (List.mem_cons_of_mem _ hy)
    have step : ∀ px : α, cx ≤ px →
        packRowGo fuel bw bh m g ks cy rest (px + x.w + g) (max rh x.h) kept
          (acc ++ [⟨x.id, x.w, x.h, px, cy⟩]) = some (rem', rh', out) →
        out.Pairwise (fun a b => ¬ footprintsOverlap a b) ∧
          (∀ p ∈ out, p.y = cy ∧ p.h ≤ rh') ∧ rh ≤ rh' ∧
          (∀ y ∈ rem', y ∈ kept ∨ y ∈ x :: rest) := by
      intro px hpx hres'
      have hacc' : ∀ p ∈ acc ++ [(⟨x.id, x.w, x.h, px, cy⟩ : PlacedRect α)],
          p.y = cy ∧ p.x + p.w ≤ px + x.w + g ∧ p.h ≤ max rh x.h := by
        intro p hp
        rcases List.mem_append.mp hp with h | h
        · obtain ⟨hy, hxe, hh⟩ := hacc p h
          exact ⟨hy, by linarith, le_trans hh (le_max_left _ _)⟩
        · simp only [List.mem_singleton] at h
          subst h
          refine ⟨rfl, ?_, le_max_right _ _⟩
          show px + x.w ≤ px + x.w + g
          linarith
      have hpair' : (acc ++ [(⟨x.id, x.w, x.h, px, cy⟩ : PlacedRect α)]).Pairwise
          (fun a b => ¬ footprintsOverlap a b) := by
        rw [List.pairwise_append]
        refine ⟨hpair, List.pairwise_singleton _ _, ?_⟩
        intro a ha b hb
        simp only [List.mem_singleton] at hb
        subst hb
        obtain ⟨hy, hxe, hh⟩ := hacc a ha
        intro hov
        have h2 := hov.2.1
        change px < a.x + a.w at h2
        linarith
      obtain ⟨c1, c2, c3, c4⟩ := ih hw' hacc' hpair' hres'
      exact ⟨c1, c2, le_trans (le_max_left _ _) c3,
        fun y hy => (c4 y hy).imp id (List.mem_cons_of_mem _)⟩
    have skip : ∀ cx'' : α, cx ≤ cx'' →
        packRowGo fuel bw bh m g ks cy rest cx'' rh (kept ++ [x]) acc =
          some (rem', rh', out) →
        out.Pairwise (fun a b => ¬ footprintsOverlap a b) ∧
          (∀ p ∈ out, p.y = cy ∧ p.h ≤ rh') ∧ rh ≤ rh' ∧
          (∀ y ∈ rem', y ∈ kept ∨ y ∈ x :: rest) := by
      intro cx'' hpx hres'
      have hacc'' : ∀ p ∈ acc, p.y = cy ∧ p.x + p.w ≤ cx'' ∧ p.h ≤ rh :=
        fun p hp => ⟨(hacc p hp).1, le_trans (hacc p hp).2.1 hpx, (hacc p hp).2.2⟩
      obtain ⟨c1, c2, c3, c4⟩ := ih hw' hacc'' hpair hres'
      refine ⟨c1, c2, c3, fun y hy => ?_⟩
      rcases c4 y hy with h | h
      · rcases List.mem_append.mp h with h' | h'
        · exact Or.inl h'
        · simp only [List.mem_singleton] at h'
          exact Or.inr (h' ▸ List.mem_cons_self _ _)
      · exact Or.inr (List.mem_cons_of_mem _ h)
    rw [packRowGo] at hres
    split at hres <;> rename_i hfit
    · split at hres <;> rename_i hov
      · rcases hsr : shiftRight fuel bw m g ks cx cy x.w x.h with _ | ⟨(_ | _), cx'⟩
        · rw [hsr] at hres; exact absurd hres (by simp)
        · rw [hsr] at hres
          exact skip cx' (shiftRight_le hg hsr) hres
        · rw [hsr] at hres
          exact step cx' (shiftRight_le hg hsr) hres
      · exact step cx le_rfl hres
    · exact skip cx le_rfl hres

/-- Bed invariant: every rect already placed ends above the current cursor,
so each further row is disjoint from everything placed before it. -/
theorem packBedLoop_disjoint {g : α} (hg : 0 ≤ g) :
    ∀ {fuel : Nat} {bw bh m : α} {ks : List (Keepout α)} {remaining rem : List (Rect α)}
      {cy rh : α} {placed out : List (PlacedRect α)},
    (∀ x ∈ remaining, 0 ≤ x.w) →
    (∀ p ∈ placed, p.y + p.h ≤ cy) →
    placed.Pairwise (fun a b => ¬ footprintsOverlap a b) →
    packBedLoop fuel bw bh m g ks remaining cy rh placed = some (out, rem) →
    out.Pairwise (fun a b => ¬ footprintsOverlap a b) ∧ ∀ x ∈ rem, x ∈ remaining := by
  intro fuel
  induction fuel with
  | zero =>
    intro bw bh m ks remaining rem cy rh placed out hw hplaced hpair hres
    rw [packBedLoop_zero] at hres
    split at hres
    · exact absurd hres (by simp)
    · simp only [Option.some.injEq, Prod.mk.injEq] at hres
      exact ⟨hres.1 ▸ hpair, fun x hx => hres.2 ▸ hx⟩
  | succ n ih =>
    intro bw bh m ks remaining rem cy rh placed out hw hplaced hpair hres
    rw [packBedLoop_succ] at hres
    by_cases hc : remaining ≠ [] ∧ cy + rh ≤ bh - m
    · rw [if_pos hc] at hres
      rcases hrow : packRowGo n bw bh m g ks cy remaining m 0 [] []
        with _ | ⟨rem₂, rh₂, prow⟩
      · rw [hrow] at hres; exact absurd hres (by simp)
      · rw [hrow] at hres
        obtain ⟨rpair, rprops, rrh, rsub⟩ :=
          packRowGo_disjoint hg (by exact hw) (by simp) List.Pairwise.nil hrow
        have hsub₂ : ∀ x ∈ rem₂, x ∈ remaining := by
          intro x hx
          rcases rsub x hx with h | h
          · simp at h
          · exact h
        have hnewpair : (placed ++ prow).Pairwise (fun a b => ¬ footprintsOverlap a b) := by
          rw [List.pairwise_append]
          refine ⟨hpair, rpair, ?_⟩
          intro a ha b hb hov
          have h4 := hov.2.2.2
          have hby : b.y = cy := (rprops b hb).1
          have := hplaced a ha
          rw [hby] at h4
          linarith
        have hres' : (if (if rh₂ = 0 then cy + g else cy + rh₂ + g) > bh - m then
            some (placed ++ prow, rem₂)
          else packBedLoop n bw bh m g ks rem₂
            (if rh₂ = 0 then cy + g else cy + rh₂ + g) rh₂ (placed ++ prow)) =
            some (out, rem) := hres
        have hple : ∀ p ∈ placed ++ prow,
            p.y + p.h ≤ if rh₂ = 0 then cy + g else cy + rh₂ + g := by
          intro p hp
          rcases List.mem_append.mp hp with h | h
          · by_cases hz : rh₂ = 0
            · rw [if_pos hz]; linarith [hplaced p h]
            · rw [if_neg hz]; linarith [hplaced p h, rrh]
          · obtain ⟨hy, hh⟩ := rprops p h
            rw [hy]
            by_cases hz : rh₂ = 0
            · rw [if_pos hz]; rw [hz] at hh; linarith
            · rw [if_neg hz]; linarith
        by_cases hgt : (if rh₂ = 0 then cy + g else cy + rh₂ + g) > bh - m
        · rw [if_pos hgt] at hres'
          simp only [Option.some.injEq, Prod.mk.injEq] at hres'
          exact ⟨hres'.1 ▸ hnewpair, fun x hx => hsub₂ x (hres'.2 ▸ hx)⟩
        · rw [if_neg hgt] at hres'
          obtain ⟨c1, c2⟩ := ih (fun x hx => hw x (hsub₂ x hx)) hple hnewpair hres'
          exact ⟨c1, fun x hx => hsub₂ x (c2 x hx)⟩
    · rw [if_neg hc] at hres
      simp only [Option.some.injEq, Prod.mk.injEq] at hres
      exact ⟨hres.1 ▸ hpair, fun x hx => hres.2 ▸ hx⟩

/-- Pagination: each produced bed is a single-bed packing of the rects that
survived the previous beds, hence pairwise disjoint. -/
theorem packPagLoop_disjoint {g : α} (hg : 0 ≤ g) :
    ∀ {fuel : Nat} {bw bh m : α} {ks : List (Keepout α)} {remaining : List (Rect α)}
      {beds out : List (List (PlacedRect α))},
    (∀ x ∈ remaining, 0 ≤ x.w) →
    (∀ bed ∈ beds, bed.Pairwise (fun a b => ¬ footprintsOverlap a b)) →
    packPagLoop fuel bw bh m g ks remaining beds = some out →
    ∀ bed ∈ out, bed.Pairwise (fun a b => ¬ footprintsOverlap a b) := by
  intro fuel
  induction fuel with
  | zero =>
    intro bw bh m ks remaining beds out hw hbeds hres
    rw [packPagLoop_zero] at hres
    split at hres
    · exact absurd hres (by simp)
    · simp only [Option.some.injEq] at hres
      exact hres ▸ hbeds
  | succ n ih =>
    intro bw bh m ks remaining beds out hw hbeds hres
    rw [packPagLoop_succ] at hres
    by_cases hc : remaining ≠ []
    · rw [if_pos hc] at hres
      rcases hbed : packBedLoop n bw bh m g ks remaining m 0 []
        with _ | ⟨placed, rem₂⟩
      · rw [hbed] at hres; exact absurd hres (by simp)
      · rw [hbed] at hres
        obtain ⟨ppair, psub⟩ :=
          packBedLoop_disjoint hg (by exact hw) (by simp) List.Pairwise.nil hbed
        have hbeds' : ∀ bed ∈ beds ++ [placed],
            bed.Pairwise (fun a b => ¬ footprintsOverlap a b) := by
          intro bed hb
          rcases List.mem_append.mp hb with h | h
          · exact hbeds bed h
          · simp only [List.mem_singleton] at h
            exact h ▸ ppair
        have hres' : (if placed = [] then some (beds ++ [placed])
            else packPagLoop n bw bh m g ks rem₂ (beds ++ [placed])) = some out := hres
        by_cases hp : placed = []
        · rw [if_pos hp] at hres'
          simp only [Option.some.injEq] at hres'
          exact hres' ▸ hbeds'
        · rw [if_neg hp] at hres'
          exact ih (fun x hx => hw x (psub x hx)) hbeds' hres'
    · rw [if_neg hc] at hres
      simp only [Option.some.injEq] at hres
      exact hres ▸ hbeds

/-! ### Layout engine: data model (`layout_engine/models.py`)

The layout engine's millimeter quantities are modelled as `ℚ` (it additionally
divides by 2 for `center` anchors). -/

/-- The `anchor_point: Literal["top", "bottom", "left", "right", "center"]`. -/
inductive AnchorPoint where
  | top
  | bottom
  | left
  | right
  | center
deriving DecidableEq, Repr

/-- The `BaseElement` from `models.py`: the common fields of every layout element.
The subclass-specific fields (font, fit, clip, …) play no role in the claims
about positioning, so elements are modelled by their base fields. -/
structure Element where
  id : String
  x_mm : ℚ
  y_mm : ℚ
  w_mm : ℚ
  h_mm : ℚ
  editable : Bool
  anchor_to : Option String
  anchor_point : AnchorPoint
deriving DecidableEq, Repr

/-- The `GraphicElement(BaseElement)` from `models.py`: adds `source`.  Note that
its size fields are `w_mm`/`h_mm` (from `BaseElement`); there are no
`width_mm`/`height_mm` attributes. -/
structure GraphicElement extends Element where
  source : String
deriving DecidableEq, Repr

/-- The `Element` union of `models.py`: `TextElement | ImageElement |
GraphicElement`.  The text- and image-specific extras (font, alignment, fit,
clip shape, frame) feed only total string emissions in the renderer (every
fallible access there is inside a `try/except` or a `hasattr` guard), so
those variants keep just the base fields; graphics carry their `source`,
whose rendering can raise. -/
inductive ElementDef where
  | text (base : Element)
  | image (base : Element)
  | graphic (g : GraphicElement)
deriving DecidableEq, Repr

/-- The `BaseElement` fields of any element of the union. -/
def ElementDef.toElement : ElementDef → Element
  | ElementDef.text b => b
  | ElementDef.image b => b
  | ElementDef.graphic g => g.toElement

/-- The `BedMargin` from `models.py`. -/
structure BedMargin where
  left : ℚ
  top : ℚ
deriving DecidableEq, Repr

/-- The `BedDefinition` from `models.py`. -/
structure BedDefinition where
  width_mm : ℚ
  height_mm : ℚ
  margin_mm : BedMargin
  origin_marker : Bool
  origin_x_mm : ℚ
  origin_y_mm : ℚ
deriving DecidableEq, Repr

/-- The `PartDefinition` from `models.py`. -/
structure PartDefinition where
  width_mm : ℚ
  height_mm : ℚ
  elements : List ElementDef
deriving DecidableEq, Repr

/-- The `TilingDefinition` from `models.py`. -/
structure TilingDefinition where
  cols : Nat
  rows : Nat
  gap_x_mm : ℚ
  gap_y_mm : ℚ
  offset_x_mm : ℚ
  offset_y_mm : ℚ
deriving DecidableEq, Repr

/-- The `TemplateJSON` from `models.py`. -/
structure TemplateJSON where
  bed : BedDefinition
  part : PartDefinition
  tiling : TilingDefinition
deriving DecidableEq, Repr

/-- The `SlotContent` from `models.py`: `slot_index` plus an open bag of
per-element content values (modelled as an association list). -/
structure SlotContent where
  slot_index : Nat
  entries : List (String × String)
deriving DecidableEq, Repr

/-- The `ContentJSON` from `models.py`. -/
structure ContentJSON where
  slots : List SlotContent
deriving DecidableEq, Repr

/-- The `ContentJSON.get_slot` (models.py lines 135-140): first slot whose
`slot_index` matches, else `None`. -/
def ContentJSON.get_slot (c : ContentJSON) (slot_index : Nat) : Option SlotContent :=
  c.slots.find? (fun slot => slot.slot_index == slot_index)

/-- The `SlotContent.get_content(element_id)` (models.py lines 127-129):
`getattr(self, element_id, None)` on the open extra-field bag, modelled as an
association-list lookup. -/
def SlotContent.get_content (s : SlotContent) (element_id : String) : Option String :=
  (s.entries.find? fun kv => kv.1 == element_id).map Prod.snd

/-! ### Anchor resolution (`renderer.py` lines 421-459) -/

/-- The `calculate_element_position(element, elements)`.  The Python function
recurses on anchor chains with no cycle guard, so it is modelled with fuel
(`none` = recursion does not terminate within the given depth, mirroring
Python's unbounded recursion / `RecursionError` on cycles).  Python's
`if not element.anchor_to` is a truthiness test, so an empty-string
`anchor_to` behaves like an absent one. -/
def calculate_element_position (fuel : Nat) (element : Element)
    (elements : List Element) : Option (ℚ × ℚ) :=
  match fuel with
  | 0 => none
  | fuel + 1 =>
    match element.anchor_to with
    | none => some (element.x_mm, element.y_mm)
    | some target =>
      if target = "" then
        some (element.x_mm, element.y_mm)
      else
        match elements.find? (fun e => e.id == target) with
        | none => some (element.x_mm, element.y_mm)
        | some anchor_element =>
          match calculate_element_position fuel anchor_element elements with
          | none => none
          | some (ax, ay) =>
            let p : ℚ × ℚ :=
              match element.anchor_point with
              | AnchorPoint.bottom => (ax, ay + anchor_element.h_mm)
              | AnchorPoint.right => (ax + anchor_element.w_mm, ay)
              | AnchorPoint.center =>
                (ax + anchor_element.w_mm / 2, ay + anchor_element.h_mm / 2)
              | _ => (ax, ay)
            some (p.1 + element.x_mm, p.2 + element.y_mm)

/-! ### Utilities (`layout_engine/utils.py`) -/

/-- The `generate_unique_id(prefix, row, col, element_id)` (utils.py lines 97-112). -/
def generate_unique_id (p : String) (row col : Nat) (element_id : String) : String :=
  if element_id ≠ "" then
    p ++ "-r" ++ toString row ++ "-c" ++ toString col ++ "-" ++ element_id
  else
    p ++ "-r" ++ toString row ++ "-c" ++ toString col

/-- The `escape_xml(text)` (utils.py lines 79-94): sequential `str.replace` of
the five special XML characters (the last one is the apostrophe). -/
def escape_xml (text : String) : String :=
  ((((text.replace "&" "&amp;").replace "<" "&lt;").replace ">" "&gt;").replace
    "\"" "&quot;").replace (String.singleton (Char.ofNat 39)) "&apos;"

/-- The `wrap_text(text, max_width_mm, font_size_pt, font_family)` (utils.py
lines 39-62): splits only on explicit newlines; the width and font arguments
are unused by the source. -/
def wrap_text (text : String) (max_width_mm font_size_pt : ℚ)
    (font_family : String) : List String :=
  let _ := max_width_mm
  let _ := font_size_pt
  let _ := font_family
  text.splitOn "\n"

/-! ### Graphic element rendering (`renderer.py` lines 328-418)

String-scanning helpers mirroring the Python operations
`re.search` of the pattern `viewBox="([^"]+)"`, `str.find` of `>`,
`str.rfind` of `</svg>` and the `in` containment test. -/

/-- Char-list version of "pat is a leading part of cs". -/
def startsWithChars : List Char → List Char → Bool
  | [], _ => true
  | _ :: _, [] => false
  | p :: ps, c :: cs => p == c && startsWithChars ps cs

/-- At the current position, match `([^"]+)"` and return the capture. -/
def viewBoxCaptureAt (cs : List Char) : Option (List Char) :=
  let cap := cs.takeWhile (fun c => c ≠ '"')
  let rest := cs.dropWhile (fun c => c ≠ '"')
  if cap ≠ [] ∧ rest ≠ [] then some cap else none

/-- Leftmost match of the regex `viewBox="([^"]+)"`, as `re.search` finds it. -/
def searchViewBox : List Char → Option (List Char)
  | [] => none
  | c :: cs =>
    if startsWithChars ("viewBox=".toList ++ ['"']) (c :: cs) then
      match viewBoxCaptureAt ((c :: cs).drop 9) with
      | some cap => some cap
      | none => searchViewBox cs
    else searchViewBox cs

/-- Index of the first occurrence of the character `>`, Python `str.find`. -/
def firstGtIdx : List Char → Option Nat
  | [] => none
  | c :: cs => if c == '>' then some 0 else (firstGtIdx cs).map (· + 1)

/-- All indices at which `pat` occurs. -/
def matchPositions (pat : List Char) : List Char → Nat → List Nat
  | [], _ => []
  | c :: cs, i =>
    (if startsWithChars pat (c :: cs) then [i] else []) ++ matchPositions pat cs (i + 1)

/-- Python `str.rfind(pat)`: index of the last occurrence, `none` for -1. -/
def lastSubstrIdx (pat : String) (s : String) : Option Nat :=
  (matchPositions pat.toList s.toList 0).getLast?

/-- Python `pat in s`. -/
def containsSubstr (pat : String) (s : String) : Bool :=
  !(matchPositions pat.toList s.toList 0).isEmpty

/-- The `source.lower().endswith(('.png', '.jpg', '.jpeg'))`. -/
def isRasterSource (source : String) : Bool :=
  source.toLower.endsWith ".png" || source.toLower.endsWith ".jpg" ||
    source.toLower.endsWith ".jpeg"

/-- Structural content of the markup returned by `render_graphic_element`:
the re-wrapped positioned vector container, or the diagnostic comment plus
placeholder stroked rectangle.  (The surrounding literal string assembly,
which involves Python float formatting, is abstracted to these fields;
`.strip()` is modelled by `String.trim`.) -/
inductive GraphicRender where
  | inlineSvg (element_id : String) (x_mm y_mm w_mm h_mm : ℚ)
      (viewBox : String) (inner : String)
  | placeholder (comment_source : String) (element_id : String)
      (x_mm y_mm w_mm h_mm : ℚ)
deriving DecidableEq, Repr

/-- The `render_graphic_element(element, row, col, dynamic_source)` (renderer.py
lines 328-418).  `fs` models the read-only filesystem/assets lookup of the
`else` branch (path resolution plus `read_text`, any raised error giving
`none` as the `try/except` does).  `Except.error` models a Python exception
escaping the function: in the raster branch the f-string evaluates
`element.width_mm`/`element.height_mm`, attributes that `GraphicElement`
does not define (its fields are `w_mm`/`h_mm`), so Python raises
`AttributeError` there. -/
def render_graphic_element (fs : String → Option String) (element : GraphicElement)
    (row col : Nat) (dynamic_source : Option String) :
    Except String GraphicRender :=
  let element_id := generate_unique_id "graphic" row col element.id
  let source := match dynamic_source with
    | some s => if s ≠ "" then s else element.source
    | none => element.source
  if source ≠ "" ∧ isRasterSource source then
    Except.error "AttributeError: GraphicElement object has no attribute width_mm"
  else
    let svg_content : Option String :=
      if source.startsWith "<svg" then some source
      else if source.startsWith "http://" || source.startsWith "https://" then none
      else fs source
    match svg_content with
    | some c =>
      if c ≠ "" then
        let viewBox := match searchViewBox c.toList with
          | some cap => String.mk cap
          | none => "0 0 100 100"
        let inner :=
          if containsSubstr "<svg" c then
            match firstGtIdx c.toList, lastSubstrIdx "</svg>" c with
            | some s, some e =>
              (String.mk ((c.toList.drop (s + 1)).take (e - (s + 1)))).trim
            | _, _ => c
          else c
        Except.ok (GraphicRender.inlineSvg element_id element.x_mm element.y_mm
          element.w_mm element.h_mm viewBox inner)
      else
        Except.ok (GraphicRender.placeholder (escape_xml element.source) element_id
          element.x_mm element.y_mm element.w_mm element.h_mm)
    | none =>
      Except.ok (GraphicRender.placeholder (escape_xml element.source) element_id
        element.x_mm element.y_mm element.w_mm element.h_mm)

/-! ### Part rendering and plate tiling (`render_part` lines 458-514,
`renderPlateSVG` lines 561-586 of renderer.py) -/

/-- The first loop of `render_part`: resolve every element's absolute
position with `calculate_element_position`, in template order.  A `none`
(anchor recursion that does not bottom out, i.e. a cycle) aborts the whole
rendering, as Python's unbounded recursion does. -/
def resolvePositions (fuel : Nat) (baseElems : List Element) :
    List ElementDef → Option (List (ElementDef × ℚ × ℚ))
  | [] => some []
  | e :: es =>
    match calculate_element_position fuel e.toElement baseElems with
    | none => none
    | some (ax, ay) =>
      match resolvePositions fuel baseElems es with
      | none => none
      | some rest => some ((e, ax, ay) :: rest)

/-- The graphics loop of `render_part` (lines 505-511): each graphic element
is re-positioned (`model_copy(update x_mm, y_mm, anchor_to=None)`), its
per-slot dynamic source looked up with `get_content`, and rendered with
`render_graphic_element`; the first raised exception aborts the loop. -/
def renderGraphics (fs : String → Option String) (slot_content : Option SlotContent)
    (row col : Nat) : List (GraphicElement × ℚ × ℚ) → Except String (List GraphicRender)
  | [] => Except.ok []
  | (g, ax, ay) :: gs =>
    let positioned : GraphicElement :=
      { g with toElement := { g.toElement with x_mm := ax, y_mm := ay, anchor_to := none } }
    let dyn := match slot_content with
      | some sc => sc.get_content g.id
      | none => none
    match render_graphic_element fs positioned row col dyn with
    | Except.error e => Except.error e
    | Except.ok r =>
      match renderGraphics fs slot_content row col gs with
      | Except.error e => Except.error e
      | Except.ok rest => Except.ok (r :: rest)

/-- Structural content of one `render_part` output: all elements with their
resolved absolute positions, and the rendered graphic markups (the z-top
layer).  The text and image markup in between is total string assembly
(its fallible accesses are guarded by `try/except` or `hasattr` in the
source) and is abstracted to the positioned element list. -/
structure PartRender where
  positioned : List (ElementDef × ℚ × ℚ)
  graphics : List GraphicRender
deriving DecidableEq, Repr

/-- The `render_part(template, slot_content, row, col)` (renderer.py lines
458-514): position resolution first (a cycle never returns), then the
image, text and graphic loops; only the graphic loop can raise (the raster
`AttributeError` of `render_graphic_element`), and its exception escapes
`render_part`. -/
def render_part (fuel : Nat) (fs : String → Option String) (template : TemplateJSON)
    (slot_content : Option SlotContent) (row col : Nat) :
    Option (Except String PartRender) :=
  let baseElems := template.part.elements.map ElementDef.toElement
  match resolvePositions fuel baseElems template.part.elements with
  | none => none
  | some positioned =>
    let graphics := positioned.filterMap fun t =>
      match t.1 with
      | ElementDef.graphic g => some (g, t.2.1, t.2.2)
      | _ => none
    match renderGraphics fs slot_content row col graphics with
    | Except.error e => some (Except.error e)
    | Except.ok gs => some (Except.ok ⟨positioned, gs⟩)

/-- One tile group emitted by the nested `for row / for col` loop of
`renderPlateSVG`: its grid cell, the translate coordinates of its `<g>`
transform, the slot content looked up for it, and the rendered part. -/
structure Tile where
  row : Nat
  col : Nat
  tile_x : ℚ
  tile_y : ℚ
  slot : Option SlotContent
  part : PartRender
deriving DecidableEq, Repr

/-- The body of `renderPlateSVG`'s tile loop over the row-major index list:
each iteration computes the tile origin, looks up the slot with
`get_slot(row * cols + col)` and calls `render_part` (renderer.py line 584);
an exception raised there propagates out of `renderPlateSVG` (no tile list
is produced), and an anchor cycle never returns. -/
def renderPlateTilesGo (fuel : Nat) (fs : String → Option String)
    (template : TemplateJSON) (content : ContentJSON) :
    List (Nat × Nat) → List Tile → Option (Except String (List Tile))
  | [], acc => some (Except.ok acc)
  | (row, col) :: idxs, acc =>
    let slot := content.get_slot (row * template.tiling.cols + col)
    match render_part fuel fs template slot row col with
    | none => none
    | some (Except.error e) => some (Except.error e)
    | some (Except.ok pr) =>
      renderPlateTilesGo fuel fs template content idxs (acc ++
        [{ row := row
           col := col
           tile_x := template.bed.margin_mm.left + template.tiling.offset_x_mm +
             (col : ℚ) * (template.part.width_mm + template.tiling.gap_x_mm)
           tile_y := template.bed.margin_mm.top + template.tiling.offset_y_mm +
             (row : ℚ) * (template.part.height_mm + template.tiling.gap_y_mm)
           slot := slot
           part := pr }])

/-- The tile loop of `renderPlateSVG` (renderer.py lines 561-586), one `Tile`
per iteration in emission order (row-major), with `render_part`'s failure
modes threaded through: `some (Except.ok tiles)` models the loop completing
and emitting these tile groups, `some (Except.error e)` a Python exception
escaping `renderPlateSVG`, and `none` a non-returning anchor recursion.  The
surrounding SVG string assembly (header, comments, origin marker, and the
textual wrapping of each tile) is abstracted; positions, slot lookup and the
per-tile `render_part` call are exactly the source's. -/
def renderPlateTiles (fuel : Nat) (fs : String → Option String)
    (template : TemplateJSON) (content : ContentJSON) :
    Option (Except String (List Tile)) :=
  renderPlateTilesGo fuel fs template content
    ((List.range template.tiling.rows).flatMap fun row =>
      (List.range template.tiling.cols).map fun col => (row, col)) []

/-! ### Auxiliary facts for the claims -/

/-- The bed loop makes no progress on a bed of height 100, margin 5 and
gutter 0 holding one rect of width 200: the rect never fits, the row places
nothing, `row_height` stays 0 and `cursor_y += gutter` leaves `cursor_y`
unchanged, so the `while` loop repeats the same state forever. -/
theorem packBedLoop_stuck :
    ∀ fuel : Nat,
      packBedLoop fuel (100 : ℤ) 100 5 0 [] [⟨"a", 200, 10⟩] 5 0 [] = none := by
  intro fuel
  have hc : ([(⟨"a", 200, 10⟩ : Rect ℤ)] ≠ [] ∧ (5 : ℤ) + 0 ≤ 100 - 5) := by
    constructor
    · simp
    · decide
  induction fuel with
  | zero => rw [packBedLoop_zero, if_pos hc]
  | succ n ih =>
    rw [packBedLoop_succ, if_pos hc]
    have hrow : packRowGo n (100 : ℤ) 100 5 0 [] 5 [⟨"a", 200, 10⟩] 5 0 [] [] =
        some ([⟨"a", 200, 10⟩], 0, []) := by
      rw [packRowGo, if_neg (by decide), packRowGo]
      simp
    rw [hrow]
    show (if (if (0 : ℤ) = 0 then (5 : ℤ) + 0 else 5 + 0 + 0) > 100 - 5 then
        some (([] : List (PlacedRect ℤ)) ++ [], [(⟨"a", 200, 10⟩ : Rect ℤ)])
      else packBedLoop n (100 : ℤ) 100 5 0 [] [⟨"a", 200, 10⟩]
        (if (0 : ℤ) = 0 then (5 : ℤ) + 0 else 5 + 0 + 0) 0 ([] ++ [])) = none
    rw [if_pos (show (0 : ℤ) = 0 from rfl)]
    rw [if_neg (by decide : ¬((5 : ℤ) + 0 > 100 - 5))]
    simpa using ih

/-- The pagination loop only ever appends to its `beds` accumulator. -/
theorem packPagLoop_acc :
    ∀ {fuel : Nat} {bw bh m g : α} {ks : List (Keepout α)} {remaining : List (Rect α)}
      {beds out : List (List (PlacedRect α))},
    packPagLoop fuel bw bh m g ks remaining beds = some out →
    ∃ tail, out = beds ++ tail := by
  intro fuel
  induction fuel with
  | zero =>
    intro bw bh m g ks remaining beds out hres
    rw [packPagLoop_zero] at hres
    split at hres
    · exact absurd hres (by simp)
    · simp only [Option.some.injEq] at hres
      exact ⟨[], by simp [hres]⟩
  | succ n ih =>
    intro bw bh m g ks remaining beds out hres
    rw [packPagLoop_succ] at hres
    by_cases hc : remaining ≠ []
    · rw [if_pos hc] at hres
      rcases hbed : packBedLoop n bw bh m g ks remaining m 0 [] with _ | ⟨placed, rem'⟩
      · rw [hbed] at hres; exact absurd hres (by simp)
      · rw [hbed] at hres
        have hres' : (if placed = [] then some (beds ++ [placed])
            else packPagLoop n bw bh m g ks rem' (beds ++ [placed])) = some out := hres
        by_cases hp : placed = []
        · rw [if_pos hp] at hres'
          simp only [Option.some.injEq] at hres'
          exact ⟨[placed], hres'.symm⟩
        · rw [if_neg hp] at hres'
          obtain ⟨tail, htail⟩ := ih hres'
          exact ⟨[placed] ++ tail, by simp [htail]⟩
    · rw [if_neg hc] at hres
      simp only [Option.some.injEq] at hres
      exact ⟨[], by simp [hres]⟩

/-- The 20 identical 140×90 rects of the pagination scenario (§8 of the
spec); ids chosen so that the sort's tie-break keeps the given order. -/
def rects20 : List (Rect ℤ) :=
  [⟨"00", 140, 90⟩, ⟨"01", 140, 90⟩, ⟨"02", 140, 90⟩, ⟨"03", 140, 90⟩,
   ⟨"04", 140, 90⟩, ⟨"05", 140, 90⟩, ⟨"06", 140, 90⟩, ⟨"07", 140, 90⟩,
   ⟨"08", 140, 90⟩, ⟨"09", 140, 90⟩, ⟨"10", 140, 90⟩, ⟨"11", 140, 90⟩,
   ⟨"12", 140, 90⟩, ⟨"13", 140, 90⟩, ⟨"14", 140, 90⟩, ⟨"15", 140, 90⟩,
   ⟨"16", 140, 90⟩, ⟨"17", 140, 90⟩, ⟨"18", 140, 90⟩, ⟨"19", 140, 90⟩]

/-- What `pack_paginated` actually returns on the scenario of `rects20` on a
480×330 bed with margin 5, gutter 5 and no keepouts: three beds, packed
3-per-row in rows at y = 5, 100, 195. -/
def beds20 : List (List (PlacedRect ℤ)) :=
  [[⟨"00", 140, 90, 5, 5⟩, ⟨"01", 140, 90, 150, 5⟩, ⟨"02", 140, 90, 295, 5⟩,
    ⟨"03", 140, 90, 5, 100⟩, ⟨"04", 140, 90, 150, 100⟩, ⟨"05", 140, 90, 295, 100⟩,
    ⟨"06", 140, 90, 5, 195⟩, ⟨"07", 140, 90, 150, 195⟩, ⟨"08", 140, 90, 295, 195⟩],
   [⟨"09", 140, 90, 5, 5⟩, ⟨"10", 140, 90, 150, 5⟩, ⟨"11", 140, 90, 295, 5⟩,
    ⟨"12", 140, 90, 5, 100⟩, ⟨"13", 140, 90, 150, 100⟩, ⟨"14", 140, 90, 295, 100⟩,
    ⟨"15", 140, 90, 5, 195⟩, ⟨"16", 140, 90, 150, 195⟩, ⟨"17", 140, 90, 295, 195⟩],
   [⟨"18", 140, 90, 5, 5⟩, ⟨"19", 140, 90, 150, 5⟩]]

/-! ### The claims -/

/-- Claim **C1** (refuted — code bug): the bed-bounds invariant does not hold for
every placed rect.  On a 100×100 bed with margin 0, gutter 60 and keepout
(0,0,10,10), `pack_first_fit` places rect "a" (w = 50) at x = 60, so
x + w = 110 > bed_w - margin = 100: the keepout-avoidance loop checks the
horizontal bound *before* shifting by the gutter, not after, so the shifted
placement can land past the right bed edge. -/
theorem claim_C1_bed_bounds_violated :
    pack_first_fit 10 [⟨"a", 50, 10⟩] (100 : ℤ) 100 0 60 [(0, 0, 10, 10)] 42 =
      some ([⟨"a", 50, 10, 60, 0⟩], []) ∧
      ¬((60 : ℤ) + 50 ≤ 100 - 0) := by
  exact ⟨by decide, by decide⟩

/-- Claim **C4** (refuted — code bug): `pack_first_fit` does not always return.
With gutter 0 and a rect wider than the usable bed, no row ever places
anything, `cursor_y += gutter` makes no progress, and the Python `while`
loop runs forever (modelled: the loop yields `none` for every fuel bound). -/
theorem claim_C4_nontermination :
    ∀ fuel : Nat,
      pack_first_fit fuel [⟨"a", 200, 10⟩] (100 : ℤ) 100 5 0 [] 42 = none := by
  intro fuel
  simp only [pack_first_fit]
  rw [show sortRects [(⟨"a", 200, 10⟩ : Rect ℤ)] = [⟨"a", 200, 10⟩] from rfl]
  rw [packBedLoop_stuck fuel]

/-- Claim **C5** (confirmed): `pack_paginated` is deterministic and
seed-independent — the `random.Random(seed)` it builds is never used, so any
two seeds (and any two invocations on identical inputs) give identical bed
lists. -/
theorem claim_C5_seed_independent :
    ∀ {α : Type} [_inst : LinearOrderedCommRing α]
      (fuel : Nat) (rects : List (Rect α)) (bed_w bed_h margin gutter : α)
      (keepouts : List (Keepout α)) (s1 s2 : Int),
      pack_paginated fuel rects bed_w bed_h margin gutter keepouts s1 =
        pack_paginated fuel rects bed_w bed_h margin gutter keepouts s2 := by
  intro α _inst fuel rects bed_w bed_h margin gutter keepouts s1 s2
  rfl

/-- Claim **C8** (confirmed): `wrap_text` returns exactly the split of the text on
explicit newline characters, independently of the width, font size and font
family arguments. -/
theorem claim_C8_wrap_text_newlines :
    ∀ (text : String) (w f w' f' : ℚ) (ff ff' : String),
      wrap_text text w f ff = text.splitOn "\n" ∧
        wrap_text text w f ff = wrap_text text w' f' ff' :=
  fun _ _ _ _ _ _ _ => ⟨rfl, rfl⟩

/-- Claim **C9 counterexample**: as stated ("for every call"), mutual non-overlap
fails — with a negative gutter (accepted by the code) two 10×10 rects are
placed at x = 0 and x = 5 on the same row and their interiors overlap. -/
theorem claim_C9_counterexample :
    pack_first_fit 10 [⟨"a", 10, 10⟩, ⟨"b", 10, 10⟩] (100 : ℤ) 100 0 (-5) [] 42 =
      some ([⟨"a", 10, 10, 0, 0⟩, ⟨"b", 10, 10, 5, 0⟩], []) ∧
      footprintsOverlap (⟨"a", 10, 10, 0, 0⟩ : PlacedRect ℤ) ⟨"b", 10, 10, 5, 0⟩ := by
  exact ⟨by decide, by decide⟩

/-- Claim **C9 amended** (proved): for every call with a nonnegative gutter and
nonnegative rect widths, no two rects placed on the same bed overlap (open
interiors pairwise disjoint), both for `pack_first_fit` and for every bed of
`pack_paginated`, whenever the call terminates. -/
theorem claim_C9_amended :
    ∀ {α : Type} [_inst : LinearOrderedCommRing α]
      (fuel : Nat) (rects : List (Rect α)) (bed_w bed_h margin gutter : α)
      (keepouts : List (Keepout α)) (seed : Int),
      0 ≤ gutter → (∀ r ∈ rects, 0 ≤ r.w) →
      (∀ placed warnings,
        pack_first_fit fuel rects bed_w bed_h margin gutter keepouts seed =
          some (placed, warnings) →
        placed.Pairwise (fun p q => ¬ footprintsOverlap p q)) ∧
      (∀ beds,
        pack_paginated fuel rects bed_w bed_h margin gutter keepouts seed = some beds →
        ∀ bed ∈ beds, bed.Pairwise (fun p q => ¬ footprintsOverlap p q)) := by
  intro α _inst fuel rects bw bh m g ks seed hg hw
  constructor
  · intro placed warnings hres
    simp only [pack_first_fit] at hres
    rcases hbed : packBedLoop fuel bw bh m g ks (sortRects rects) m 0 []
      with _ | ⟨p, rem⟩
    · rw [hbed] at hres; exact absurd hres (by simp)
    · rw [hbed] at hres
      simp only [Option.some.injEq, Prod.mk.injEq] at hres
      have hout := (packBedLoop_disjoint hg
        (fun x hx => hw x (mem_sortRects hx)) (by simp) List.Pairwise.nil hbed).1
      exact hres.1 ▸ hout
  · intro beds hres
    exact packPagLoop_disjoint hg (fun x hx => hw x (mem_sortRects hx))
      (by simp) hres

/-- Claim **C9 witness**: the amended theorem applied to a concrete terminating
call. -/
theorem claim_C9_witness :
    ([(⟨"a", 10, 10, 0, 0⟩ : PlacedRect ℤ)].Pairwise
      fun p q => ¬ footprintsOverlap p q) :=
  (claim_C9_amended 5 [⟨"a", 10, 10⟩] (100 : ℤ) 100 0 0 [] 42
      (by decide) (by decide)).1
    [⟨"a", 10, 10, 0, 0⟩] [] (by decide)

/-- Claim **C10** (confirmed): on a non-empty rect list, whenever `pack_paginated`
terminates its first bed is exactly the `placed` list `pack_first_fit`
returns for the same arguments (the two functions run the textually
identical per-bed loop on the same sorted list). -/
theorem claim_C10_first_bed_agreement :
    ∀ {α : Type} [_inst : LinearOrderedCommRing α]
      (fuel : Nat) (rects : List (Rect α)) (bed_w bed_h margin gutter : α)
      (keepouts : List (Keepout α)) (seed : Int) (beds : List (List (PlacedRect α))),
      rects ≠ [] →
      pack_paginated fuel rects bed_w bed_h margin gutter keepouts seed = some beds →
      ∃ placed warnings,
        pack_first_fit fuel rects bed_w bed_h margin gutter keepouts seed =
          some (placed, warnings) ∧ beds.head? = some placed := by
  intro α _inst fuel rects bw bh m g ks seed beds hne hres
  have hsne : sortRects rects ≠ [] := by
    intro h
    apply hne
    have hperm := sortRects_perm rects
    rw [h] at hperm
    exact hperm.symm.eq_nil
  have hres' : packPagLoop fuel bw bh m g ks (sortRects rects) [] = some beds := hres
  cases fuel with
  | zero =>
    rw [packPagLoop_zero, if_pos hsne] at hres'
    exact absurd hres' (by simp)
  | succ n =>
    rw [packPagLoop_succ, if_pos hsne] at hres'
    rcases hbed : packBedLoop n bw bh m g ks (sortRects rects) m 0 []
      with _ | ⟨placed, rem⟩
    · rw [hbed] at hres'; exact absurd hres' (by simp)
    · rw [hbed] at hres'
      have hff : pack_first_fit (n + 1) rects bw bh m g ks seed =
          some (placed, if rem ≠ [] then ["OVERFLOW"] else []) := by
        simp only [pack_first_fit]
        rw [packBedLoop_mono (Nat.le_succ n) hbed]
      refine ⟨placed, _, hff, ?_⟩
      have hres'' : (if placed = [] then some ([] ++ [placed])
          else packPagLoop n bw bh m g ks rem ([] ++ [placed])) = some beds := hres'
      by_cases hp : placed = []
      · rw [if_pos hp] at hres''
        simp only [Option.some.injEq] at hres''
        rw [← hres'']
        simp
      · rw [if_neg hp] at hres''
        obtain ⟨tail, htail⟩ := packPagLoop_acc hres''
        rw [htail]
        simp

/-- Length of a row-major `flatMap`/`map` grid over `range`. -/
theorem flatMapRange_length {β : Type} (R C : Nat) (f : Nat → Nat → β) :
    ((List.range R).flatMap (fun r => (List.range C).map (f r))).length = R * C := by
  induction R with
  | zero => simp
  | succ n ih =>
    rw [List.range_succ, List.flatMap_append]
    simp only [List.length_append, ih, List.flatMap_cons, List.flatMap_nil,
      List.append_nil, List.length_map, List.length_range]
    ring

/-- Indexing a row-major `flatMap`/`map` grid at `row * C + col` yields the
`(row, col)` entry. -/
theorem flatMapRange_get {β : Type} (R C : Nat) (f : Nat → Nat → β) :
    ∀ row col : Nat, row < R → col < C →
      ((List.range R).flatMap (fun r => (List.range C).map (f r)))[row * C + col]? =
        some (f row col) := by
  induction R with
  | zero => intro row col hr _; exact absurd hr (Nat.not_lt_zero row)
  | succ n ih =>
    intro row col hr hc
    rw [List.range_succ, List.flatMap_append]
    rcases Nat.lt_or_ge row n with h | h
    · have hlen : row * C + col <
          ((List.range n).flatMap (fun r => (List.range C).map (f r))).length := by
        rw [flatMapRange_length n C f]
        have h1 : row * C + col < (row + 1) * C := by
          rw [Nat.succ_mul]; omega
        have h2 : (row + 1) * C ≤ n * C := Nat.mul_le_mul_right C h
        omega
      rw [List.getElem?_append_left hlen]
      exact ih row col h hc
    · have hrow : row = n := by omega
      rw [hrow]
      have hge : ((List.range n).flatMap (fun r => (List.range C).map (f r))).length ≤
          n * C + col := by
        rw [flatMapRange_length n C f]
        exact Nat.le_add_right _ _
      rw [List.getElem?_append_right hge]
      rw [flatMapRange_length n C f]
      simp only [List.flatMap_cons, List.flatMap_nil, List.append_nil]
      rw [Nat.add_sub_cancel_left]
      rw [List.getElem?_map]
      rw [List.getElem?_range hc]
      rfl

/-- Claim **C2 counterexample**: the scenario of 20 identical 140×90 rects on a
480×330 bed with margin 5 and gutter 5 (no keepouts) does *not* give 2 beds
of 12 and 8: only 3 rects fit per row (3·140 + 2·5 = 430 ≤ 470 but a fourth
would need 575) and only 3 rows fit (rows at y = 5, 100, 195; a fourth would
end at 380 > 325), so the beds hold 9, 9 and 2. -/
theorem claim_C2_counterexample :
    (pack_paginated 100 rects20 480 330 5 5 [] 42).map
        (fun beds => beds.map List.length) = some [9, 9, 2] ∧
      ([9, 9, 2] : List Nat) ≠ [12, 8] := by
  exact ⟨by decide, by decide⟩

/-- Claim **C2 amended** (proved): packing the 20 identical 140×90 rects with
`pack_paginated` onto the 480×330 bed with margin 5 and gutter 5 returns
exactly 3 beds, holding 9, 9 and 2 rects (concretely `beds20`), and the
result is identical across repeated calls and seeds. -/
theorem claim_C2_amended :
    ∀ fuel : Nat, 100 ≤ fuel →
      pack_paginated fuel rects20 480 330 5 5 [] 42 = some beds20 ∧
        beds20.map List.length = [9, 9, 2] ∧
        ∀ s1 s2 : Int, pack_paginated fuel rects20 480 330 5 5 [] s1 =
          pack_paginated fuel rects20 480 330 5 5 [] s2 := by
  intro fuel hfuel
  refine ⟨?_, by decide, fun s1 s2 => rfl⟩
  exact pack_paginated_mono hfuel (by decide)

/-- Claim **C2 witness**: the amended theorem applied at fuel 100. -/
theorem claim_C2_witness :
    pack_paginated 100 rects20 480 330 5 5 [] 42 = some beds20 :=
  (claim_C2_amended 100 (by decide)).1

/-- Claim **C3** (refuted — code bug): `render_graphic_element` is not total.  For
any raster source (lower-cased name ending in `.png/.jpg/.jpeg`) the image
branch's f-string reads `element.width_mm` and `element.height_mm` —
attributes `GraphicElement` does not define (its box fields are
`w_mm`/`h_mm`) — so Python raises `AttributeError` instead of emitting the
image primitive, contradicting "never a hard failure". -/
theorem claim_C3_raster_attribute_error :
    render_graphic_element (fun _ => none)
        ⟨⟨"g1", 1, 2, 30, 40, true, none, AnchorPoint.top⟩, "logo.png"⟩ 0 0 none =
      Except.error "AttributeError: GraphicElement object has no attribute width_mm" := by
  with_unfolding_all rfl

/-- Claim **C6** (confirmed): the anchor-resolution contract of
`calculate_element_position`: an unset anchor (absent, or the empty string —
the source's `if not element.anchor_to` is a truthiness test) resolves to the
element's own `(x_mm, y_mm)`; an anchor matching no element
id also resolves to `(x_mm, y_mm)` with no error; otherwise the target's
absolute position is resolved recursively, offset by the target's size
according to `anchor_point` (`bottom`: +h_mm to y; `right`: +w_mm to x;
`center`: +w_mm/2 and +h_mm/2; `top`/`left`: nothing), and the element's own
`(x_mm, y_mm)` is added on top. -/
theorem claim_C6_anchor_contract :
    (∀ (fuel : Nat) (e : Element) (elements : List Element),
      e.anchor_to = none ∨ e.anchor_to = some "" →
      calculate_element_position (fuel + 1) e elements = some (e.x_mm, e.y_mm)) ∧
    (∀ (fuel : Nat) (e : Element) (elements : List Element) (t : String),
      e.anchor_to = some t →
      elements.find? (fun a => a.id == t) = none →
      calculate_element_position (fuel + 1) e elements = some (e.x_mm, e.y_mm)) ∧
    (∀ (fuel : Nat) (e : Element) (elements : List Element) (t : String)
      (a : Element) (ax ay : ℚ),
      e.anchor_to = some t → t ≠ "" →
      elements.find? (fun x => x.id == t) = some a →
      calculate_element_position fuel a elements = some (ax, ay) →
      calculate_element_position (fuel + 1) e elements =
        some ((match e.anchor_point with
            | AnchorPoint.right => ax + a.w_mm
            | AnchorPoint.center => ax + a.w_mm / 2
            | _ => ax) + e.x_mm,
          (match e.anchor_point with
            | AnchorPoint.bottom => ay + a.h_mm
            | AnchorPoint.center => ay + a.h_mm / 2
            | _ => ay) + e.y_mm)) := by
  refine ⟨?_, ?_, ?_⟩
  · intro fuel e elements h
    rcases h with h | h
    · simp [calculate_element_position, h]
    · simp [calculate_element_position, h]
  · intro fuel e elements t h hfind
    by_cases ht : t = ""
    · subst ht
      simp [calculate_element_position, h]
    · simp [calculate_element_position, h, ht, hfind]
  · intro fuel e elements t a ax ay h ht hfind hrec
    simp only [calculate_element_position, h, ht, hfind, hrec, if_neg ht]
    cases hap : e.anchor_point <;> simp [hap]

/-- Claim **C6 witness**: element "B" anchored to the bottom of element "A"
(A at (1,2), 10×20; B offset (3,4)) resolves to (1+3, 2+20+4) = (4, 26). -/
theorem claim_C6_witness :
    calculate_element_position 2
        ⟨"B", 3, 4, 5, 6, true, some "A", AnchorPoint.bottom⟩
        [⟨"A", 1, 2, 10, 20, true, none, AnchorPoint.top⟩,
         ⟨"B", 3, 4, 5, 6, true, some "A", AnchorPoint.bottom⟩] = some (4, 26) := by
  have h := claim_C6_anchor_contract.2.2 1
    ⟨"B", 3, 4, 5, 6, true, some "A", AnchorPoint.bottom⟩
    [⟨"A", 1, 2, 10, 20, true, none, AnchorPoint.top⟩,
     ⟨"B", 3, 4, 5, 6, true, some "A", AnchorPoint.bottom⟩]
    "A" ⟨"A", 1, 2, 10, 20, true, none, AnchorPoint.top⟩ 1 2
    rfl (by simp) (by with_unfolding_all rfl) (by with_unfolding_all rfl)
  rw [h]
  norm_num

/-- What the tile loop guarantees about its accumulator when it completes
without raising: the produced list extends the accumulator, one tile per
index pair in order, each tile carrying the source's translate coordinates,
the `get_slot` lookup and a successful `render_part` result for its cell. -/
theorem renderPlateTilesGo_spec (fuel : Nat) (fs : String → Option String)
    (template : TemplateJSON) (content : ContentJSON) :
    ∀ (idxs : List (Nat × Nat)) (acc tiles : List Tile),
    renderPlateTilesGo fuel fs template content idxs acc = some (Except.ok tiles) →
    tiles.length = acc.length + idxs.length ∧
    (∀ k, k < acc.length → tiles[k]? = acc[k]?) ∧
    (∀ k, k < idxs.length → ∃ r c pr, idxs[k]? = some (r, c) ∧
      render_part fuel fs template (content.get_slot (r * template.tiling.cols + c)) r c =
        some (Except.ok pr) ∧
      tiles[acc.length + k]? =
        some (Tile.mk r c
          (template.bed.margin_mm.left + template.tiling.offset_x_mm +
            (c : ℚ) * (template.part.width_mm + template.tiling.gap_x_mm))
          (template.bed.margin_mm.top + template.tiling.offset_y_mm +
            (r : ℚ) * (template.part.height_mm + template.tiling.gap_y_mm))
          (content.get_slot (r * template.tiling.cols + c)) pr)) := by
  intro idxs
  induction idxs with
  | nil =>
    intro acc tiles hres
    rw [renderPlateTilesGo] at hres
    simp only [Option.some.injEq, Except.ok.injEq] at hres
    subst hres
    exact ⟨by simp, fun k _ => rfl, fun k hk => absurd hk (Nat.not_lt_zero k)⟩
  | cons rc idxs ih =>
    intro acc tiles hres
    obtain ⟨row, col⟩ := rc
    rw [renderPlateTilesGo] at hres
    rcases hrp : render_part fuel fs template
        (content.get_slot (row * template.tiling.cols + col)) row col
      with _ | er
    · rw [hrp] at hres; exact absurd hres (by simp)
    · rw [hrp] at hres
      rcases er with e | pr
      · exact absurd hres (by simp)
      · obtain ⟨hlen, hpre, hidx⟩ := ih _ tiles hres
        refine ⟨by simp at hlen ⊢; omega, ?_, ?_⟩
        · intro k hk
          rw [hpre k (by simp; omega)]
          exact List.getElem?_append_left hk
        · intro k hk
          match k with
          | 0 =>
            refine ⟨row, col, pr, by simp, hrp, ?_⟩
            have ht := hpre acc.length (by simp)
            rw [List.getElem?_append_right (le_refl _), Nat.sub_self] at ht
            simpa using ht
          | k + 1 =>
            obtain ⟨r, c, pr', h1, h2, h3⟩ := hidx k (by simpa using hk)
            refine ⟨r, c, pr', by simpa using h1, h2, ?_⟩
            rw [show acc.length + (k + 1) = (acc ++
              [Tile.mk row col
                (template.bed.margin_mm.left + template.tiling.offset_x_mm +
                  (col : ℚ) * (template.part.width_mm + template.tiling.gap_x_mm))
                (template.bed.margin_mm.top + template.tiling.offset_y_mm +
                  (row : ℚ) * (template.part.height_mm + template.tiling.gap_y_mm))
                (content.get_slot (row * template.tiling.cols + col)) pr]).length + k
              from by simp; omega]
            exact h3

/-- A template whose part contains a graphic element with a raster source:
rendering any tile of it raises the `AttributeError` of claim C3. -/
def rasterTemplateEx : TemplateJSON :=
  ⟨⟨480, 330, ⟨0, 0⟩, true, 0, 0⟩,
   ⟨100, 50, [ElementDef.graphic ⟨⟨"g1", 1, 2, 30, 40, true, none, AnchorPoint.top⟩,
     "logo.png"⟩]⟩,
   ⟨2, 2, 0, 0, 0, 0⟩⟩

/-- Claim **C7 counterexample**: the claim fails for templates whose parts the
renderer cannot draw.  For `rasterTemplateEx` (2×2 tiling, so the claim
promises 4 tile groups) the very first tile's `render_part` raises the
raster-source `AttributeError` of claim C3, the exception escapes
`renderPlateSVG`, and zero tile groups are emitted. -/
theorem claim_C7_counterexample :
    renderPlateTiles 10 (fun _ => none) rasterTemplateEx ⟨[]⟩ =
      some (Except.error
        "AttributeError: GraphicElement object has no attribute width_mm") ∧
      rasterTemplateEx.tiling.rows * rasterTemplateEx.tiling.cols = 4 := by
  exact ⟨by with_unfolding_all rfl, rfl⟩

/-- Claim **C7 amended** (proved): whenever `renderPlateSVG` completes without
raising (every anchor chain resolves and every tile's `render_part`
succeeds), it emits exactly `rows * cols` tile groups in row-major order,
and the tile at index `row * cols + col` is the one for grid cell
`(row, col)`: translated to `(margin.left + offset_x + col·(part.w + gap_x),
margin.top + offset_y + row·(part.h + gap_y))` and rendered from the slot
whose `slot_index` is `row * cols + col` (empty content when no such slot
exists). -/
theorem claim_C7_amended :
    ∀ (fuel : Nat) (fs : String → Option String) (template : TemplateJSON)
      (content : ContentJSON) (tiles : List Tile),
      renderPlateTiles fuel fs template content = some (Except.ok tiles) →
      tiles.length = template.tiling.rows * template.tiling.cols ∧
      ∀ row col : Nat, row < template.tiling.rows → col < template.tiling.cols →
        ∃ pr : PartRender,
          render_part fuel fs template
              (content.get_slot (row * template.tiling.cols + col)) row col =
            some (Except.ok pr) ∧
          tiles[row * template.tiling.cols + col]? =
            some (Tile.mk row col
              (template.bed.margin_mm.left + template.tiling.offset_x_mm +
                (col : ℚ) * (template.part.width_mm + template.tiling.gap_x_mm))
              (template.bed.margin_mm.top + template.tiling.offset_y_mm +
                (row : ℚ) * (template.part.height_mm + template.tiling.gap_y_mm))
              (content.get_slot (row * template.tiling.cols + col)) pr) := by
  intro fuel fs t c tiles hres
  obtain ⟨hlen, _, hidx⟩ := renderPlateTilesGo_spec fuel fs t c
    ((List.range t.tiling.rows).flatMap fun row =>
      (List.range t.tiling.cols).map fun col => (row, col)) [] tiles hres
  have hlen' : ((List.range t.tiling.rows).flatMap fun row =>
      (List.range t.tiling.cols).map fun col => (row, col)).length =
      t.tiling.rows * t.tiling.cols :=
    flatMapRange_length t.tiling.rows t.tiling.cols (fun r c => (r, c))
  constructor
  · rw [hlen, hlen']
    simp
  · intro row col hr hc
    have hk : row * t.tiling.cols + col < t.tiling.rows * t.tiling.cols := by
      have h1 : row * t.tiling.cols + col < (row + 1) * t.tiling.cols := by
        rw [Nat.succ_mul]; omega
      have h2 : (row + 1) * t.tiling.cols ≤ t.tiling.rows * t.tiling.cols :=
        Nat.mul_le_mul_right _ hr
      omega
    obtain ⟨r, c', pr, hidxk, hrp, htile⟩ :=
      hidx (row * t.tiling.cols + col) (by rw [hlen']; exact hk)
    have hidxval : ((List.range t.tiling.rows).flatMap fun row =>
        (List.range t.tiling.cols).map fun col =>
          (row, col))[row * t.tiling.cols + col]? = some (row, col) :=
      flatMapRange_get t.tiling.rows t.tiling.cols (fun r c => (r, c)) row col hr hc
    rw [hidxk] at hidxval
    simp only [Option.some.injEq, Prod.mk.injEq] at hidxval
    obtain ⟨hre, hce⟩ := hidxval
    subst hre
    subst hce
    exact ⟨pr, hrp, by simpa using htile⟩

/-- A 2×2 template (bed margins 7/11, part 100×50, gaps 3/4, offsets 1/2). -/
def tileTemplateEx : TemplateJSON :=
  ⟨⟨480, 330, ⟨7, 11⟩, true, 0, 0⟩, ⟨100, 50, []⟩, ⟨2, 2, 3, 4, 1, 2⟩⟩

/-- Content for `tileTemplateEx` with only slot 3 present. -/
def tileContentEx : ContentJSON := ⟨[⟨3, [("t", "x")]⟩]⟩

/-- The four tiles `renderPlateSVG` emits for `tileTemplateEx`. -/
def tiles4ex : List Tile :=
  [⟨0, 0, 8, 13, none, ⟨[], []⟩⟩, ⟨0, 1, 111, 13, none, ⟨[], []⟩⟩,
   ⟨1, 0, 8, 67, none, ⟨[], []⟩⟩, ⟨1, 1, 111, 67, some ⟨3, [("t", "x")]⟩, ⟨[], []⟩⟩]

/-- Claim **C7 witness**: the amended theorem at the 2×2 example, whose tile
loop completes: the tile at index 1·2+1 = 3 is cell (1,1) at
(7+1+1·(100+3), 11+2+1·(50+4)) = (111, 67) with slot 3's content. -/
theorem claim_C7_witness :
    ∃ pr : PartRender,
      render_part 10 (fun _ => none) tileTemplateEx
          (ContentJSON.get_slot tileContentEx 3) 1 1 = some (Except.ok pr) ∧
      tiles4ex[3]? = some (Tile.mk 1 1 111 67 (ContentJSON.get_slot tileContentEx 3) pr) := by
  have h := (claim_C7_amended 10 (fun _ => none) tileTemplateEx tileContentEx tiles4ex
    (by with_unfolding_all rfl)).2 1 1 (by decide) (by decide)
  rw [show (1 * tileTemplateEx.tiling.cols + 1) = 3 from rfl] at h
  obtain ⟨pr, h1, h2⟩ := h
  refine ⟨pr, h1, ?_⟩
  rw [h2]
  norm_num [tileTemplateEx]

/-- Claim **C10 witness**: the agreement theorem applied to a concrete call. -/
theorem claim_C10_witness :
    ∃ placed warnings,
      pack_first_fit 5 [⟨"a", 10, 10⟩] (100 : ℤ) 100 0 0 [] 42 =
        some (placed, warnings) ∧
        ([[(⟨"a", 10, 10, 0, 0⟩ : PlacedRect ℤ)]]).head? = some placed :=
  claim_C10_first_bed_agreement 5 [⟨"a", 10, 10⟩] (100 : ℤ) 100 0 0 [] 42
    [[⟨"a", 10, 10, 0, 0⟩]] (by simp) (by decide)

end Personaliser
